import Mathlib

/-!
Shallow embedding of the fraud-detection pipeline
(`quantum_hackathon`: `src/model/qsvm_classifier.py`,
`src/model/evaluation_metrics.py`, `src/model/fraud_model_development.py`,
`src/model/load_kaggle_data.py`, `src/model/fraud_data_analysis.py`,
`src/quantum_solver.py`).

Matrices are lists of rows over `ℚ`; label vectors are lists of `ℤ`.
External libraries (Qiskit quantum kernels, sklearn SVC, SMOTE, numpy
randomness) are abstracted as explicit environment records; repository code
is translated function by function.
-/

/-- A data matrix: a list of sample rows, each a list of rational features. -/
abbrev Mat : Type := List (List ℚ)

/-- Number of columns of a matrix (`X.shape[1]` for a well-formed matrix). -/
def ncols (X : Mat) : ℕ := (X.headD []).length

/-- Column projection `X[:, idx]`: every row keeps the entries at the
positions listed in `idx`, in that order. -/
def selectCols (X : Mat) (idx : List ℕ) : Mat :=
  X.map (fun r => idx.map (fun j => r.getD j 0))

section Sklearn

/-!  Modelled sklearn metric primitives, used by `evaluation_metrics.py`,
`fraud_model_development.py` and `quantum_solver.py`.  Division on `ℚ` is
total with `x / 0 = 0`, matching the `zero_division=0` conventions below. -/

/-- True positives: pairs with true label 1 and predicted label 1. -/
def countTP (yTrue yPred : List ℤ) : ℕ :=
  ((yTrue.zip yPred).filter (fun p => p.1 = 1 ∧ p.2 = 1)).length

/-- True negatives: pairs with true label 0 and predicted label 0. -/
def countTN (yTrue yPred : List ℤ) : ℕ :=
  ((yTrue.zip yPred).filter (fun p => p.1 = 0 ∧ p.2 = 0)).length

/-- False positives: pairs with true label 0 and predicted label 1. -/
def countFP (yTrue yPred : List ℤ) : ℕ :=
  ((yTrue.zip yPred).filter (fun p => p.1 = 0 ∧ p.2 = 1)).length

/-- False negatives: pairs with true label 1 and predicted label 0. -/
def countFN (yTrue yPred : List ℤ) : ℕ :=
  ((yTrue.zip yPred).filter (fun p => p.1 = 1 ∧ p.2 = 0)).length

/-- `sklearn.metrics.accuracy_score`: fraction of positions where the two
label vectors agree. -/
def accuracyScore (yTrue yPred : List ℤ) : ℚ :=
  (((yTrue.zip yPred).filter (fun p => p.1 = p.2)).length : ℚ) / (yTrue.length : ℚ)

/-- `sklearn.metrics.precision_score` with `zero_division=0`:
`TP / (TP + FP)`, and `0` when `TP + FP = 0`. -/
def precisionScore (yTrue yPred : List ℤ) : ℚ :=
  let tp := countTP yTrue yPred
  let fp := countFP yTrue yPred
  if tp + fp = 0 then 0 else (tp : ℚ) / ((tp : ℚ) + (fp : ℚ))

/-- `sklearn.metrics.recall_score` with `zero_division=0`:
`TP / (TP + FN)`, and `0` when `TP + FN = 0`. -/
def recallScore (yTrue yPred : List ℤ) : ℚ :=
  let tp := countTP yTrue yPred
  let fn := countFN yTrue yPred
  if tp + fn = 0 then 0 else (tp : ℚ) / ((tp : ℚ) + (fn : ℚ))

/-- `sklearn.metrics.f1_score` with `zero_division=0`:
`2*TP / (2*TP + FP + FN)`, and `0` when that denominator is `0`. -/
def f1Score (yTrue yPred : List ℤ) : ℚ :=
  let tp := countTP yTrue yPred
  let fp := countFP yTrue yPred
  let fn := countFN yTrue yPred
  if 2 * tp + fp + fn = 0 then 0
  else (2 * (tp : ℚ)) / (2 * (tp : ℚ) + (fp : ℚ) + (fn : ℚ))

end Sklearn

section QSVMModel

/-!  `src/model/qsvm_classifier.py`.  The Qiskit fidelity quantum kernel and
the sklearn SVC solver are external; they appear as the fields of `QSVMEnv`.
`M` is the (abstract) type of fitted SVC models. -/

/-- Entanglement pattern of the ZZ-FeatureMap (`'full' | 'linear' | 'circular'`). -/
inductive Entanglement : Type
  | full
  | linear
  | circular
deriving DecidableEq, Repr

/-- The parameters of the `ZZFeatureMap` constructed by `ZZFeatureMapEncoder`:
feature dimension (= qubits), repetitions, entanglement pattern. -/
structure FeatureMapSpec : Type where
  n_features : ℕ
  reps : ℕ
  entanglement : Entanglement
deriving DecidableEq, Repr

/-- The kernel argument passed to `sklearn.svm.SVC`. -/
inductive SVCKernelArg : Type
  | precomputed
  | rbf
deriving DecidableEq, Repr

/-- Constructor arguments of the `SVC` built in `QSVM.__init__`. -/
structure SVCParams : Type where
  kernel : SVCKernelArg
  C : ℚ
  probability : Bool
deriving DecidableEq, Repr

/-- External operations used by `QSVM`: a quantum-kernel entry function
(`FidelityQuantumKernel`, one entry `K(x_i, x_j)` per pair of samples) and
the sklearn SVC solver (fit, predict, predict_proba) over an abstract type
`M` of fitted models. -/
structure QSVMEnv (M : Type) : Type where
  kern : FeatureMapSpec → List ℚ → List ℚ → ℚ
  svcFit : SVCParams → Mat → List ℤ → M
  svcPredict : M → Mat → List ℤ
  svcPredictProba : M → Mat → List (ℚ × ℚ)

/-- `QuantumKernelComputer.compute_kernel_matrix`: the matrix
`K[i, j] = K(X1_i, X2_j)`; when `X2` is `none` it computes `K(X1, X1)`. -/
def compute_kernel_matrix (kern : List ℚ → List ℚ → ℚ) (X1 : Mat) (X2 : Option Mat) : Mat :=
  let X2v := X2.getD X1
  X1.map (fun r1 => X2v.map (fun r2 => kern r1 r2))

/-- The state of a `QSVM` instance: the feature-map parameters, the SVC
constructor arguments, and the mutable fields `svm` (a fitted model after
`fit`), `X_train`, `is_trained`. -/
structure QSVM (M : Type) : Type where
  n_features : ℕ
  C : ℚ
  featureMap : FeatureMapSpec
  svmParams : SVCParams
  svmFitted : Option M
  X_train : Option Mat
  is_trained : Bool

/-- `QSVM.__init__`: builds the ZZ-FeatureMap encoder and kernel computer,
creates `SVC(kernel='precomputed', C=C, probability=True)`, and initialises
`X_train = None`, `is_trained = False`. -/
def QSVM.make (M : Type) (n_features : ℕ) (reps : ℕ) (ent : Entanglement) (C : ℚ) : QSVM M :=
  { n_features := n_features
    C := C
    featureMap := { n_features := n_features, reps := reps, entanglement := ent }
    svmParams := { kernel := SVCKernelArg.precomputed, C := C, probability := true }
    svmFitted := none
    X_train := none
    is_trained := false }

/-- `QSVM.fit`: computes the quantum-kernel matrix `K(X_train, X_train)`,
fits the SVC on it, stores the training features, and marks the model
trained. -/
def QSVM.fit {M : Type} (env : QSVMEnv M) (q : QSVM M) (Xtr : Mat) (ytr : List ℤ) : QSVM M :=
  let K_train := compute_kernel_matrix (env.kern q.featureMap) Xtr none
  { q with
    svmFitted := some (env.svcFit q.svmParams K_train ytr)
    X_train := some Xtr
    is_trained := true }

/-- `QSVM.predict`: raises `ValueError` (here: `none`) when the model is not
trained; otherwise computes `K(X_test, X_train)` and returns the SVC
predictions on that matrix. -/
def QSVM.predict {M : Type} (env : QSVMEnv M) (q : QSVM M) (Xte : Mat) : Option (List ℤ) :=
  if q.is_trained = false then none
  else
    let K_test := compute_kernel_matrix (env.kern q.featureMap) Xte q.X_train
    match q.svmFitted with
    | some m => some (env.svcPredict m K_test)
    | none => none

/-- `QSVM.predict_proba`: raises `ValueError` (here: `none`) when the model
is not trained; otherwise computes `K(X_test, X_train)` and returns the SVC
class probabilities on that matrix. -/
def QSVM.predict_proba {M : Type} (env : QSVMEnv M) (q : QSVM M) (Xte : Mat) :
    Option (List (ℚ × ℚ)) :=
  if q.is_trained = false then none
  else
    let K_test := compute_kernel_matrix (env.kern q.featureMap) Xte q.X_train
    match q.svmFitted with
    | some m => some (env.svcPredictProba m K_test)
    | none => none

/-- `QSVM.score`: accuracy of `predict` against the true test labels
(defined on trained models; an untrained model contributes the empty
prediction list). -/
def QSVM.score {M : Type} (env : QSVMEnv M) (q : QSVM M) (Xte : Mat) (yte : List ℤ) : ℚ :=
  accuracyScore yte ((QSVM.predict env q Xte).getD [])

/-- Replay of a sequence of `fit` calls on a `QSVM` instance (the only
state-mutating operation of the class). -/
def QSVM.applyFits {M : Type} (env : QSVMEnv M) (q : QSVM M) :
    List (Mat × List ℤ) → QSVM M
  | [] => q
  | f :: rest => QSVM.applyFits env (QSVM.fit env q f.1 f.2) rest

end QSVMModel

/-- After any `fit`, replaying more fits keeps `is_trained = true` and a
fitted SVC present. -/
theorem QSVM.applyFits_trained {M : Type} (env : QSVMEnv M) (fits : List (Mat × List ℤ))
    (q : QSVM M) (h1 : q.is_trained = true) (h2 : q.svmFitted.isSome = true) :
    (QSVM.applyFits env q fits).is_trained = true ∧
      (QSVM.applyFits env q fits).svmFitted.isSome = true := by
  induction fits generalizing q with
  | nil => exact ⟨h1, h2⟩
  | cons f rest ih =>
      exact ih (QSVM.fit env q f.1 f.2) rfl rfl

/-- C1: `QSVM.fit` computes the quantum-kernel Gram matrix
`K(X_train, X_train)` via the kernel computer and fits the classical SVC —
created with `kernel='precomputed'` — on that matrix; `QSVM.predict` computes
`K(X_test, X_train)` against the stored training features and returns the
SVC's predictions on that matrix. -/
theorem qsvm_fit_predict_precomputed_kernel (M : Type) (env : QSVMEnv M)
    (n reps : ℕ) (ent : Entanglement) (C : ℚ) (Xtr : Mat) (ytr : List ℤ) (Xte : Mat) :
    let q0 := QSVM.make M n reps ent C
    let q1 := QSVM.fit env q0 Xtr ytr
    q0.svmParams.kernel = SVCKernelArg.precomputed ∧
    q1.svmFitted =
      some (env.svcFit q0.svmParams (compute_kernel_matrix (env.kern q0.featureMap) Xtr none) ytr) ∧
    q1.X_train = some Xtr ∧
    QSVM.predict env q1 Xte =
      some (env.svcPredict
        (env.svcFit q0.svmParams (compute_kernel_matrix (env.kern q0.featureMap) Xtr none) ytr)
        (compute_kernel_matrix (env.kern q0.featureMap) Xte (some Xtr))) := by
  refine ⟨rfl, rfl, rfl, ?_⟩
  rfl

/-- C8: on any sequence of operations on one `QSVM` instance, `predict` and
`predict_proba` fail (`ValueError`) exactly when no `fit` has been applied;
after a `fit` the instance has `is_trained = true`, stores exactly the
training features passed, and uses them in the kernel evaluation of every
subsequent prediction. -/
theorem qsvm_predict_requires_fit (M : Type) (env : QSVMEnv M)
    (n reps : ℕ) (ent : Entanglement) (C : ℚ) (fits : List (Mat × List ℤ)) (Xte : Mat) :
    let q := QSVM.applyFits env (QSVM.make M n reps ent C) fits
    ((QSVM.predict env q Xte = none) ↔ fits = []) ∧
    ((QSVM.predict_proba env q Xte = none) ↔ fits = []) ∧
    (∀ X y,
      let q' := QSVM.fit env q X y
      q'.is_trained = true ∧ q'.X_train = some X ∧
      QSVM.predict env q' Xte =
        some (env.svcPredict
          (env.svcFit q'.svmParams (compute_kernel_matrix (env.kern q'.featureMap) X none) y)
          (compute_kernel_matrix (env.kern q'.featureMap) Xte (some X)))) := by
  intro q
  have hsplit : fits = [] ∨ fits ≠ [] := Decidable.em _
  constructor
  · constructor
    · intro hnone
      by_contra hne
      rcases List.exists_cons_of_ne_nil hne with ⟨f, rest, rfl⟩
      have htr := QSVM.applyFits_trained env rest
        (QSVM.fit env (QSVM.make M n reps ent C) f.1 f.2) rfl rfl
      have h1 : q.is_trained = true := htr.1
      have h2 : q.svmFitted.isSome = true := htr.2
      rcases Option.isSome_iff_exists.mp h2 with ⟨m, hm⟩
      simp only [QSVM.predict, h1, hm] at hnone
      exact Option.noConfusion hnone
    · intro hnil
      subst hnil
      rfl
  constructor
  · constructor
    · intro hnone
      by_contra hne
      rcases List.exists_cons_of_ne_nil hne with ⟨f, rest, rfl⟩
      have htr := QSVM.applyFits_trained env rest
        (QSVM.fit env (QSVM.make M n reps ent C) f.1 f.2) rfl rfl
      have h1 : q.is_trained = true := htr.1
      have h2 : q.svmFitted.isSome = true := htr.2
      rcases Option.isSome_iff_exists.mp h2 with ⟨m, hm⟩
      simp only [QSVM.predict_proba, h1, hm] at hnone
      exact Option.noConfusion hnone
    · intro hnil
      subst hnil
      rfl
  · intro X y
    exact ⟨rfl, rfl, rfl⟩

section EvaluationMetrics

/-!  `src/model/evaluation_metrics.py`, class `FraudDetectionMetrics`.
`compute_confusion_matrix_components` unpacks `confusion_matrix(.).ravel()`
into four values, which succeeds exactly when the label union is the two
classes `{0, 1}`; that guard is the `Option` below. -/

/-- The dictionary returned by `compute_confusion_matrix_components`. -/
structure ConfusionCounts : Type where
  TP : ℕ
  TN : ℕ
  FP : ℕ
  FN : ℕ
deriving DecidableEq, Repr

/-- `FraudDetectionMetrics.compute_confusion_matrix_components`: the four
confusion-matrix counts of a binary `confusion_matrix` (`none` when the
`tn, fp, fn, tp = cm.ravel()` unpacking would fail, i.e. when the vectors
do not form a 2x2 binary confusion matrix). -/
def compute_confusion_matrix_components (yTrue yPred : List ℤ) : Option ConfusionCounts :=
  if yTrue.length = yPred.length ∧ (∀ l ∈ yTrue ++ yPred, l = 0 ∨ l = 1)
      ∧ (0 : ℤ) ∈ yTrue ++ yPred ∧ (1 : ℤ) ∈ yTrue ++ yPred then
    some { TP := countTP yTrue yPred, TN := countTN yTrue yPred,
           FP := countFP yTrue yPred, FN := countFN yTrue yPred }
  else none

/-- The metrics dictionary built by `compute_all_metrics` (the `y_prob=None`
call, so without the optional AUC entries). -/
structure AllMetrics : Type where
  TP : ℕ
  TN : ℕ
  FP : ℕ
  FN : ℕ
  accuracy : ℚ
  precision : ℚ
  «recall» : ℚ
  f1_score : ℚ
  TPR : ℚ
  FPR : ℚ
deriving DecidableEq, Repr

/-- `FraudDetectionMetrics.compute_all_metrics` with `y_prob=None`: the
confusion counts, the sklearn scores with `zero_division=0`, and the two
manually computed rates with their `if (..) > 0 else 0` guards. -/
def compute_all_metrics (yTrue yPred : List ℤ) : Option AllMetrics :=
  (compute_confusion_matrix_components yTrue yPred).map (fun c =>
    { TP := c.TP, TN := c.TN, FP := c.FP, FN := c.FN,
      accuracy := accuracyScore yTrue yPred,
      precision := precisionScore yTrue yPred,
      «recall» := recallScore yTrue yPred,
      f1_score := f1Score yTrue yPred,
      TPR := if c.TP + c.FN > 0 then (c.TP : ℚ) / ((c.TP : ℚ) + (c.FN : ℚ)) else 0,
      FPR := if c.FP + c.TN > 0 then (c.FP : ℚ) / ((c.FP : ℚ) + (c.TN : ℚ)) else 0 })

/-- The textbook-metrics property of C4, at a pair of label vectors: the
returned dictionary exists and its entries satisfy the textbook formulas
over the confusion counts (divisions on `ℚ` are total with `x / 0 = 0`,
which is exactly the claimed zero-denominator convention). -/
def MetricsTextbook (yTrue yPred : List ℤ) : Prop :=
  ∃ m, compute_all_metrics yTrue yPred = some m ∧
    m.TP = countTP yTrue yPred ∧ m.TN = countTN yTrue yPred ∧
    m.FP = countFP yTrue yPred ∧ m.FN = countFN yTrue yPred ∧
    m.precision = (m.TP : ℚ) / ((m.TP : ℚ) + (m.FP : ℚ)) ∧
    m.«recall» = (m.TP : ℚ) / ((m.TP : ℚ) + (m.FN : ℚ)) ∧
    m.TPR = m.«recall» ∧
    m.f1_score = 2 * m.precision * m.«recall» / (m.precision + m.«recall») ∧
    m.FPR = (m.FP : ℚ) / ((m.FP : ℚ) + (m.TN : ℚ)) ∧
    (m.TP + m.FN = 0 → m.TPR = 0) ∧ (m.FP + m.TN = 0 → m.FPR = 0) ∧
    (m.TP + m.FP = 0 → m.precision = 0) ∧ (m.TP + m.FN = 0 → m.«recall» = 0) ∧
    (m.precision + m.«recall» = 0 → m.f1_score = 0)

end EvaluationMetrics

/-- A ratio guarded by `if denominator = 0 then 0` equals the unguarded
ratio over total division on `ℚ`. -/
theorem guardedDiv_eq_div (a b : ℕ) :
    (if a + b = 0 then (0 : ℚ) else (a : ℚ) / ((a : ℚ) + (b : ℚ))) =
      (a : ℚ) / ((a : ℚ) + (b : ℚ)) := by
  split_ifs with h
  · have ha : a = 0 := by omega
    have hb : b = 0 := by omega
    subst ha
    subst hb
    simp
  · rfl

/-- The `if (..) > 0 then ratio else 0` guard of the manual TPR/FPR
computation agrees with the `if (..) = 0 then 0 else ratio` guard. -/
theorem guardedPos_eq_guardedZero (a b : ℕ) :
    (if a + b > 0 then (a : ℚ) / ((a : ℚ) + (b : ℚ)) else 0) =
      (if a + b = 0 then (0 : ℚ) else (a : ℚ) / ((a : ℚ) + (b : ℚ))) := by
  rcases Nat.eq_zero_or_pos (a + b) with h | h
  · rw [if_neg (by omega), if_pos h]
  · rw [if_pos h, if_neg (by omega)]

/-- The sklearn F1 score (`2*TP / (2*TP + FP + FN)` with `zero_division=0`)
equals the harmonic form `2*P*R / (P + R)` built from the guarded precision
and recall, over total division on `ℚ`. -/
theorem f1_eq_harmonic (tp fp fn : ℕ) :
    (if 2 * tp + fp + fn = 0 then (0 : ℚ)
      else 2 * (tp : ℚ) / (2 * (tp : ℚ) + (fp : ℚ) + (fn : ℚ))) =
    2 * (if tp + fp = 0 then (0 : ℚ) else (tp : ℚ) / ((tp : ℚ) + (fp : ℚ)))
      * (if tp + fn = 0 then (0 : ℚ) else (tp : ℚ) / ((tp : ℚ) + (fn : ℚ)))
      / ((if tp + fp = 0 then (0 : ℚ) else (tp : ℚ) / ((tp : ℚ) + (fp : ℚ)))
          + (if tp + fn = 0 then (0 : ℚ) else (tp : ℚ) / ((tp : ℚ) + (fn : ℚ)))) := by
  rcases Nat.eq_zero_or_pos tp with htp | htp
  · subst htp
    have hP : (if 0 + fp = 0 then (0 : ℚ) else ((0 : ℕ) : ℚ) / (((0 : ℕ) : ℚ) + (fp : ℚ))) = 0 := by
      split_ifs <;> simp
    have hR : (if 0 + fn = 0 then (0 : ℚ) else ((0 : ℕ) : ℚ) / (((0 : ℕ) : ℚ) + (fn : ℚ))) = 0 := by
      split_ifs <;> simp
    rw [hP, hR]
    split_ifs <;> simp
  · have h1 : tp + fp ≠ 0 := by omega
    have h2 : tp + fn ≠ 0 := by omega
    have h3 : 2 * tp + fp + fn ≠ 0 := by omega
    rw [if_neg h3, if_neg h1, if_neg h2]
    have ha : (0 : ℚ) < (tp : ℚ) + (fp : ℚ) := by
      have : (0 : ℚ) < (tp : ℚ) := by exact_mod_cast htp
      positivity
    have hb : (0 : ℚ) < (tp : ℚ) + (fn : ℚ) := by
      have : (0 : ℚ) < (tp : ℚ) := by exact_mod_cast htp
      positivity
    have htpq : (0 : ℚ) < (tp : ℚ) := by exact_mod_cast htp
    have hsum : (tp : ℚ) / ((tp : ℚ) + (fp : ℚ)) + (tp : ℚ) / ((tp : ℚ) + (fn : ℚ)) ≠ 0 := by
      have hx : (0 : ℚ) < (tp : ℚ) / ((tp : ℚ) + (fp : ℚ)) := div_pos htpq ha
      have hy : (0 : ℚ) < (tp : ℚ) / ((tp : ℚ) + (fn : ℚ)) := div_pos htpq hb
      positivity
    field_simp
    ring

/-- C4: `compute_all_metrics` returns the textbook classification metrics
over the confusion-matrix counts — precision `TP/(TP+FP)`, recall = TPR
`= TP/(TP+FN)`, `F1 = 2*P*R/(P+R)`, `FPR = FP/(FP+TN)` — with every ratio
equal to 0 when its denominator is 0, for every pair of equal-length binary
label vectors whose union contains both classes. -/
theorem compute_all_metrics_textbook (yTrue yPred : List ℤ)
    (hlen : yTrue.length = yPred.length)
    (hbin : ∀ l ∈ yTrue ++ yPred, l = 0 ∨ l = 1)
    (h0 : (0 : ℤ) ∈ yTrue ++ yPred) (h1 : (1 : ℤ) ∈ yTrue ++ yPred) :
    MetricsTextbook yTrue yPred := by
  have hguard : yTrue.length = yPred.length ∧ (∀ l ∈ yTrue ++ yPred, l = 0 ∨ l = 1)
      ∧ (0 : ℤ) ∈ yTrue ++ yPred ∧ (1 : ℤ) ∈ yTrue ++ yPred := ⟨hlen, hbin, h0, h1⟩
  have hsome : compute_all_metrics yTrue yPred = some
      { TP := countTP yTrue yPred, TN := countTN yTrue yPred,
        FP := countFP yTrue yPred, FN := countFN yTrue yPred,
        accuracy := accuracyScore yTrue yPred,
        precision := precisionScore yTrue yPred,
        «recall» := recallScore yTrue yPred,
        f1_score := f1Score yTrue yPred,
        TPR := if countTP yTrue yPred + countFN yTrue yPred > 0 then
            (countTP yTrue yPred : ℚ) / ((countTP yTrue yPred : ℚ) + (countFN yTrue yPred : ℚ))
          else 0,
        FPR := if countFP yTrue yPred + countTN yTrue yPred > 0 then
            (countFP yTrue yPred : ℚ) / ((countFP yTrue yPred : ℚ) + (countTN yTrue yPred : ℚ))
          else 0 } := by
    unfold compute_all_metrics compute_confusion_matrix_components
    rw [if_pos hguard]
    rfl
  refine ⟨_, hsome, rfl, rfl, rfl, rfl, ?_, ?_, ?_, ?_, ?_, ?_, ?_, ?_, ?_, ?_⟩
  · show precisionScore yTrue yPred =
        (countTP yTrue yPred : ℚ) / ((countTP yTrue yPred : ℚ) + (countFP yTrue yPred : ℚ))
    exact guardedDiv_eq_div (countTP yTrue yPred) (countFP yTrue yPred)
  · show recallScore yTrue yPred =
        (countTP yTrue yPred : ℚ) / ((countTP yTrue yPred : ℚ) + (countFN yTrue yPred : ℚ))
    exact guardedDiv_eq_div (countTP yTrue yPred) (countFN yTrue yPred)
  · show (if countTP yTrue yPred + countFN yTrue yPred > 0 then
        (countTP yTrue yPred : ℚ) / ((countTP yTrue yPred : ℚ) + (countFN yTrue yPred : ℚ))
      else 0) = recallScore yTrue yPred
    exact (guardedPos_eq_guardedZero (countTP yTrue yPred) (countFN yTrue yPred)).trans rfl
  · show f1Score yTrue yPred = 2 * precisionScore yTrue yPred * recallScore yTrue yPred /
        (precisionScore yTrue yPred + recallScore yTrue yPred)
    exact f1_eq_harmonic (countTP yTrue yPred) (countFP yTrue yPred) (countFN yTrue yPred)
  · show (if countFP yTrue yPred + countTN yTrue yPred > 0 then
        (countFP yTrue yPred : ℚ) / ((countFP yTrue yPred : ℚ) + (countTN yTrue yPred : ℚ))
      else 0) =
        (countFP yTrue yPred : ℚ) / ((countFP yTrue yPred : ℚ) + (countTN yTrue yPred : ℚ))
    exact (guardedPos_eq_guardedZero (countFP yTrue yPred) (countTN yTrue yPred)).trans
      (guardedDiv_eq_div (countFP yTrue yPred) (countTN yTrue yPred))
  · intro h
    have h' : countTP yTrue yPred + countFN yTrue yPred = 0 := h
    show (if countTP yTrue yPred + countFN yTrue yPred > 0 then
        (countTP yTrue yPred : ℚ) / ((countTP yTrue yPred : ℚ) + (countFN yTrue yPred : ℚ))
      else 0) = 0
    rw [if_neg (by omega)]
  · intro h
    have h' : countFP yTrue yPred + countTN yTrue yPred = 0 := h
    show (if countFP yTrue yPred + countTN yTrue yPred > 0 then
        (countFP yTrue yPred : ℚ) / ((countFP yTrue yPred : ℚ) + (countTN yTrue yPred : ℚ))
      else 0) = 0
    rw [if_neg (by omega)]
  · intro h
    have h' : countTP yTrue yPred + countFP yTrue yPred = 0 := h
    show precisionScore yTrue yPred = 0
    have htp : countTP yTrue yPred = 0 := by omega
    have hfp : countFP yTrue yPred = 0 := by omega
    unfold precisionScore
    rw [htp, hfp]
    simp
  · intro h
    have h' : countTP yTrue yPred + countFN yTrue yPred = 0 := h
    show recallScore yTrue yPred = 0
    have htp : countTP yTrue yPred = 0 := by omega
    have hfn : countFN yTrue yPred = 0 := by omega
    unfold recallScore
    rw [htp, hfn]
    simp
  · intro h
    show f1Score yTrue yPred = 0
    have h' : precisionScore yTrue yPred + recallScore yTrue yPred = 0 := h
    have hPR : f1Score yTrue yPred = 2 * precisionScore yTrue yPred * recallScore yTrue yPred /
        (precisionScore yTrue yPred + recallScore yTrue yPred) :=
      f1_eq_harmonic (countTP yTrue yPred) (countFP yTrue yPred) (countFN yTrue yPred)
    rw [hPR, h']
    simp

/-- C4 witness: the theorem instantiated on the concrete label vectors
`y_true = [1, 0, 1]`, `y_pred = [1, 1, 0]`. -/
theorem compute_all_metrics_textbook_witness :
    ([1, 0, 1] : List ℤ).length = ([1, 1, 0] : List ℤ).length ∧
    MetricsTextbook [1, 0, 1] [1, 1, 0] :=
  ⟨by decide, compute_all_metrics_textbook [1, 0, 1] [1, 1, 0]
    (by decide) (by decide) (by decide) (by decide)⟩

section QuantumFraudDetectorModel

/-!  `src/model/fraud_model_development.py`.  The `qcentroid` circuit API is
modelled syntactically: a circuit is its gate list, and executing a circuit
on the backend is an abstract function into an abstract result type.
Rotation angles are recorded in units of π (the code uses `2 * np.pi * x`,
recorded here as the rational coefficient `2 * x`). -/

/-- A gate of the `qcentroid` quantum circuit. -/
inductive QGate : Type
  | h (q : ℕ)
  | cnot (a b : ℕ)
  | rx (angle : ℚ) (q : ℕ)
  | rz (angle : ℚ) (q : ℕ)
deriving DecidableEq, Repr

/-- A `qcentroid` quantum circuit: qubit count and gate sequence. -/
structure QCircuit : Type where
  n_qubits : ℕ
  gates : List QGate
deriving DecidableEq, Repr

/-- `create_quantum_classifier`: Hadamard on every qubit, a CNOT chain, then
placeholder `rx(0)`/`rz(0)` rotations per qubit. -/
def create_quantum_classifier (n_qubits : ℕ) : QCircuit :=
  { n_qubits := n_qubits
    gates := ((List.range n_qubits).map QGate.h)
      ++ ((List.range (n_qubits - 1)).map (fun i => QGate.cnot i (i + 1)))
      ++ ((List.range n_qubits).flatMap (fun i => [QGate.rx 0 i, QGate.rz 0 i])) }

/-- The `QuantumFraudDetector` state: qubit count and the base circuit. -/
structure QuantumFraudDetector : Type where
  n_qubits : ℕ
  circuit : QCircuit
deriving DecidableEq, Repr

/-- `QuantumFraudDetector.__init__`: at most 8 qubits, with the classifier
circuit built for that count. -/
def QuantumFraudDetector.make (n_features : ℕ) : QuantumFraudDetector :=
  { n_qubits := min n_features 8
    circuit := create_quantum_classifier (min n_features 8) }

/-- `QuantumFraudDetector.encode_data`: each sample's first `n_qubits`
features become rotation angles `2π·x` (recorded in units of π). -/
def encode_data (n_qubits : ℕ) (X : Mat) : Mat :=
  X.map (fun sample => (sample.take n_qubits).map (fun x => 2 * x))

/-- `QuantumFraudDetector.predict`: for each sample, copies the circuit,
adds one `rx` gate per encoded angle, executes the circuit on the backend
(`execute`), and appends `int(np.random.rand() > 0.5)` — one uniform draw
from the stream `rand` per sample — as the prediction. -/
def QuantumFraudDetector.predict (R : Type) (execute : QCircuit → R) (rand : List ℚ)
    (det : QuantumFraudDetector) (X : Mat) : List ℤ :=
  ((encode_data det.n_qubits X).zip rand).map (fun p =>
    let circuit : QCircuit :=
      { det.circuit with gates := det.circuit.gates ++ p.1.enum.map (fun q => QGate.rx q.2 q.1) }
    let result := execute circuit
    if p.2 > 1 / 2 then 1 else 0)

end QuantumFraudDetectorModel

/-- C3 (refuted by the code): `QuantumFraudDetector.predict` ignores the
circuit-execution results entirely — its output is invariant under changing
the backend executor (first conjunct) — and two runs with the identical
executor and identical input differ when the `np.random.rand()` draws
differ (second and third conjuncts: draws `7/10` vs `3/10` on the same
sample give predictions `[1]` vs `[0]`). -/
theorem quantum_predict_ignores_circuit_result :
    (∀ (R1 R2 : Type) (ex1 : QCircuit → R1) (ex2 : QCircuit → R2) (rand : List ℚ)
        (det : QuantumFraudDetector) (X : Mat),
      QuantumFraudDetector.predict R1 ex1 rand det X
        = QuantumFraudDetector.predict R2 ex2 rand det X) ∧
    QuantumFraudDetector.predict ℕ (fun _ => 0) [7 / 10]
        (QuantumFraudDetector.make 2) [[1 / 4, 1 / 4]] = [1] ∧
    QuantumFraudDetector.predict ℕ (fun _ => 0) [3 / 10]
        (QuantumFraudDetector.make 2) [[1 / 4, 1 / 4]] = [0] := by
  refine ⟨fun _ _ _ _ _ _ _ => rfl, ?_, ?_⟩
  · simp [QuantumFraudDetector.predict, encode_data, QuantumFraudDetector.make]
    norm_num
  · simp [QuantumFraudDetector.predict, encode_data, QuantumFraudDetector.make]
    norm_num

section ClassicalModels

/-!  `train_classical_models` and `evaluate_model` from
`src/model/fraud_model_development.py`.  The sklearn/xgboost estimators are
abstract: `M` is the type of fitted models, and the environment carries the
three constructor+fit calls and the shared predict interface. -/

/-- External classical estimators: fitting logistic regression, random
forest and XGBoost, the shared predict/predict_proba interface, and
`sklearn.metrics.roc_auc_score`. -/
structure ClassicalEnv (M : Type) : Type where
  lrFit : Mat → List ℤ → M
  rfFit : Mat → List ℤ → M
  xgbFit : Mat → List ℤ → M
  mPredict : M → Mat → List ℤ
  mPredictProba : M → Mat → List ℚ
  rocAuc : List ℤ → List ℚ → ℚ

/-- The metrics dictionary built by `evaluate_model` in
`fraud_model_development.py` (the `roc_auc` entry only when probabilities
are given). -/
structure EvalResults : Type where
  accuracy : ℚ
  precision : ℚ
  «recall» : ℚ
  f1 : ℚ
  roc_auc : Option ℚ

/-- `evaluate_model`: accuracy, precision, recall, F1 of predictions, plus
ROC-AUC when probability scores are provided. -/
def evaluate_model (rocAuc : List ℤ → List ℚ → ℚ) (yTrue yPred : List ℤ)
    (yProb : Option (List ℚ)) : EvalResults :=
  { accuracy := accuracyScore yTrue yPred
    precision := precisionScore yTrue yPred
    «recall» := recallScore yTrue yPred
    f1 := f1Score yTrue yPred
    roc_auc := yProb.map (fun p => rocAuc yTrue p) }

/-- `train_classical_models`: fits logistic regression, random forest and
XGBoost in that order on the training data, evaluates each on the test set,
and returns the insertion-ordered dictionary of (model, results) pairs. -/
def train_classical_models {M : Type} (env : ClassicalEnv M) (Xtr : Mat) (ytr : List ℤ)
    (Xte : Mat) (yte : List ℤ) : List (String × (M × EvalResults)) :=
  let lr_model := env.lrFit Xtr ytr
  let lr_pred := env.mPredict lr_model Xte
  let lr_prob := env.mPredictProba lr_model Xte
  let lr_results := evaluate_model env.rocAuc yte lr_pred (some lr_prob)
  let rf_model := env.rfFit Xtr ytr
  let rf_pred := env.mPredict rf_model Xte
  let rf_prob := env.mPredictProba rf_model Xte
  let rf_results := evaluate_model env.rocAuc yte rf_pred (some rf_prob)
  let xgb_model := env.xgbFit Xtr ytr
  let xgb_pred := env.mPredict xgb_model Xte
  let xgb_prob := env.mPredictProba xgb_model Xte
  let xgb_results := evaluate_model env.rocAuc yte xgb_pred (some xgb_prob)
  [("logistic_regression", (lr_model, lr_results)),
   ("random_forest", (rf_model, rf_results)),
   ("xgboost", (xgb_model, xgb_results))]

end ClassicalModels

/-- C6: `train_classical_models` returns a dictionary whose keys are exactly
`logistic_regression`, `random_forest`, `xgboost` in that order, each mapped
to the model fitted on the training data paired with its `evaluate_model`
metrics on the test set. -/
theorem train_classical_models_three_models (M : Type) (env : ClassicalEnv M)
    (Xtr Xte : Mat) (ytr yte : List ℤ) :
    let models := train_classical_models env Xtr ytr Xte yte
    models.map Prod.fst = ["logistic_regression", "random_forest", "xgboost"] ∧
    models =
      [("logistic_regression", (env.lrFit Xtr ytr,
          evaluate_model env.rocAuc yte (env.mPredict (env.lrFit Xtr ytr) Xte)
            (some (env.mPredictProba (env.lrFit Xtr ytr) Xte)))),
       ("random_forest", (env.rfFit Xtr ytr,
          evaluate_model env.rocAuc yte (env.mPredict (env.rfFit Xtr ytr) Xte)
            (some (env.mPredictProba (env.rfFit Xtr ytr) Xte)))),
       ("xgboost", (env.xgbFit Xtr ytr,
          evaluate_model env.rocAuc yte (env.mPredict (env.xgbFit Xtr ytr) Xte)
            (some (env.mPredictProba (env.xgbFit Xtr ytr) Xte))))] :=
  ⟨rfl, rfl⟩

section Preprocessing

/-!  `load_and_preprocess` from `src/model/load_kaggle_data.py` and
`prepare_data` from `src/model/fraud_data_analysis.py`.  The external
library calls (`train_test_split`, `StandardScaler`, `SMOTE`) are the
fields of `PreprocEnv`; `DF` is the raw dataframe type and `Scaler` the
fitted-scaler type. -/

/-- The four arrays produced by the 80/20 stratified `train_test_split`. -/
structure SplitData : Type where
  X_train : Mat
  X_test : Mat
  y_train : List ℤ
  y_test : List ℤ

/-- External preprocessing operations: the sklearn split, scaler fit and
transform, and `SMOTE.fit_resample`. -/
structure PreprocEnv (DF Scaler : Type) : Type where
  train_test_split : DF → SplitData
  scalerFit : Mat → Scaler
  scalerTransform : Scaler → Mat → Mat
  smote_fit_resample : Mat → List ℤ → Mat × List ℤ

/-- `X_scaled[['Time', 'Amount']] = ...`: write the transformed values back
into the listed column positions of a row, leaving other entries alone. -/
def updateRow (r : List ℚ) (cols : List ℕ) (nv : List ℚ) : List ℚ :=
  (List.range r.length).map (fun j =>
    match cols.findIdx? (fun c => c == j) with
    | some k => nv.getD k (r.getD j 0)
    | none => r.getD j 0)

/-- Row-wise `updateRow` over a matrix of replacement column values. -/
def updateCols (X : Mat) (cols : List ℕ) (newVals : Mat) : Mat :=
  (X.zip newVals).map (fun p => updateRow p.1 cols p.2)

/-- The four arrays saved to `data/processed` by `load_and_preprocess`. -/
structure SavedArrays : Type where
  X_train_scaled : Mat
  X_test_scaled : Mat
  y_train_resampled : List ℤ
  y_test : List ℤ

/-- `load_and_preprocess` (`load_kaggle_data.py`): stratified split, scaler
fit on the Time/Amount columns (`taCols`) of the training split only,
transform of both splits with that scaler, SMOTE on the scaled training
split only, and the test labels saved as split. -/
def load_and_preprocess {DF Scaler : Type} (env : PreprocEnv DF Scaler) (taCols : List ℕ)
    (df : DF) : SavedArrays :=
  let sp := env.train_test_split df
  let scaler := env.scalerFit (selectCols sp.X_train taCols)
  let X_train_scaled :=
    updateCols sp.X_train taCols (env.scalerTransform scaler (selectCols sp.X_train taCols))
  let X_test_scaled :=
    updateCols sp.X_test taCols (env.scalerTransform scaler (selectCols sp.X_test taCols))
  let res := env.smote_fit_resample X_train_scaled sp.y_train
  { X_train_scaled := res.1, X_test_scaled := X_test_scaled,
    y_train_resampled := res.2, y_test := sp.y_test }

/-- The tuple returned by `prepare_data` (`fraud_data_analysis.py`). -/
structure PreparedData (Scaler : Type) : Type where
  X_train_scaled : Mat
  X_test_scaled : Mat
  y_train_resampled : List ℤ
  y_test : List ℤ
  scaler : Scaler

/-- `prepare_data` (`fraud_data_analysis.py`): stratified split, SMOTE on
the training split only, scaler fit on the resampled training features, and
both feature matrices transformed with that one scaler. -/
def prepare_data {DF Scaler : Type} (env : PreprocEnv DF Scaler) (df : DF) :
    PreparedData Scaler :=
  let sp := env.train_test_split df
  let res := env.smote_fit_resample sp.X_train sp.y_train
  let scaler := env.scalerFit res.1
  { X_train_scaled := env.scalerTransform scaler res.1
    X_test_scaled := env.scalerTransform scaler sp.X_test
    y_train_resampled := res.2
    y_test := sp.y_test
    scaler := scaler }

end Preprocessing

/-- C5: in both preprocessing pipelines, SMOTE touches only the training
split — the saved test split of `load_and_preprocess` is invariant under
changing the SMOTE function, `y_test` is saved exactly as split — and the
scaler is fit on training data only and applied unchanged to the test
split (in `prepare_data`, the one scaler fit on the resampled training
features also scales the split's test matrix, whose rows never pass
through SMOTE, and that scaler depends only on the training split). -/
theorem preprocessing_splits_isolated (DF Scaler : Type) (e1 e2 : PreprocEnv DF Scaler)
    (taCols : List ℕ) (df df2 : DF)
    (hsplit : e1.train_test_split = e2.train_test_split)
    (hfit : e1.scalerFit = e2.scalerFit)
    (htr : e1.scalerTransform = e2.scalerTransform) :
    ((load_and_preprocess e1 taCols df).y_test = (e1.train_test_split df).y_test ∧
     (load_and_preprocess e1 taCols df).X_test_scaled =
       updateCols (e1.train_test_split df).X_test taCols
         (e1.scalerTransform (e1.scalerFit (selectCols (e1.train_test_split df).X_train taCols))
           (selectCols (e1.train_test_split df).X_test taCols))) ∧
    ((load_and_preprocess e1 taCols df).y_test = (load_and_preprocess e2 taCols df).y_test ∧
     (load_and_preprocess e1 taCols df).X_test_scaled =
       (load_and_preprocess e2 taCols df).X_test_scaled) ∧
    ((prepare_data e1 df).y_test = (e1.train_test_split df).y_test ∧
     (prepare_data e1 df).scaler =
       e1.scalerFit
         (e1.smote_fit_resample (e1.train_test_split df).X_train
           (e1.train_test_split df).y_train).1 ∧
     (prepare_data e1 df).X_test_scaled =
       e1.scalerTransform (prepare_data e1 df).scaler (e1.train_test_split df).X_test ∧
     (prepare_data e1 df).y_test = (prepare_data e2 df).y_test) ∧
    ((e1.train_test_split df).X_train = (e1.train_test_split df2).X_train →
     (e1.train_test_split df).y_train = (e1.train_test_split df2).y_train →
     (prepare_data e1 df).scaler = (prepare_data e1 df2).scaler) := by
  refine ⟨⟨rfl, rfl⟩, ⟨?_, ?_⟩, ⟨rfl, rfl, rfl, ?_⟩, ?_⟩
  · show (e1.train_test_split df).y_test = (e2.train_test_split df).y_test
    rw [hsplit]
  · show updateCols (e1.train_test_split df).X_test taCols
        (e1.scalerTransform (e1.scalerFit (selectCols (e1.train_test_split df).X_train taCols))
          (selectCols (e1.train_test_split df).X_test taCols)) =
      updateCols (e2.train_test_split df).X_test taCols
        (e2.scalerTransform (e2.scalerFit (selectCols (e2.train_test_split df).X_train taCols))
          (selectCols (e2.train_test_split df).X_test taCols))
    rw [hsplit, hfit, htr]
  · show (e1.train_test_split df).y_test = (e2.train_test_split df).y_test
    rw [hsplit]
  · intro hX hy
    show e1.scalerFit
        (e1.smote_fit_resample (e1.train_test_split df).X_train
          (e1.train_test_split df).y_train).1 =
      e1.scalerFit
        (e1.smote_fit_resample (e1.train_test_split df2).X_train
          (e1.train_test_split df2).y_train).1
    rw [hX, hy]

/-- A concrete preprocessing environment over trivial dataframe and scaler
types, used to witness C5. -/
def ppEnvA : PreprocEnv Unit Unit :=
  { train_test_split := fun _ =>
      { X_train := [[1]], X_test := [[2]], y_train := [1], y_test := [0] }
    scalerFit := fun _ => ()
    scalerTransform := fun _ X => X
    smote_fit_resample := fun X y => (X, y) }

/-- `ppEnvA` with a different SMOTE resampler (it duplicates the data). -/
def ppEnvB : PreprocEnv Unit Unit :=
  { ppEnvA with smote_fit_resample := fun X y => (X ++ X, y ++ y) }

/-- C5 witness: the theorem applied to `ppEnvA` and `ppEnvB`, which differ
only in the SMOTE resampler; their saved test splits agree. -/
theorem preprocessing_splits_isolated_witness :
    (load_and_preprocess ppEnvA [0] ()).y_test = (load_and_preprocess ppEnvB [0] ()).y_test ∧
    (load_and_preprocess ppEnvA [0] ()).X_test_scaled =
      (load_and_preprocess ppEnvB [0] ()).X_test_scaled :=
  (preprocessing_splits_isolated Unit Unit ppEnvA ppEnvB [0] () () rfl rfl rfl).2.1

section FeatureSelection

/-!  `select_features` from `src/quantum_solver.py`: variance-based
selection of the top `n_features` columns via
`np.argsort(variances)[-n_features:]`.  `np.argsort` produces indices in
ascending key order (its quicksort is modelled by an insertion sort, which
realises one such order); the negative slice `[-n:]` is the last `n`
entries for `n ≥ 1` and the whole list for `n = 0`. -/

/-- `np.var(X, axis=0)[j]`: population variance of column `j`. -/
def np_var (X : Mat) (j : ℕ) : ℚ :=
  let col := X.map (fun r => r.getD j 0)
  let mean := col.sum / (col.length : ℚ)
  ((col.map (fun x => (x - mean) ^ 2)).sum) / (col.length : ℚ)

/-- `np.argsort key` on the index range `[0, d)`: the indices in ascending
order of their key. -/
def argsortAsc (key : ℕ → ℚ) (d : ℕ) : List ℕ :=
  List.insertionSort (fun i j => key i ≤ key j) (List.range d)

/-- `select_features(X_train, X_test, n_features)`: all columns when the
matrix is within the qubit limit, otherwise the columns of the
`n_features` largest training variances (`[-0:]` is the full slice). -/
def select_features (Xtr Xte : Mat) (n_features : ℕ) : Mat × Mat × List ℕ :=
  if ncols Xtr ≤ n_features then (Xtr, Xte, List.range (ncols Xtr))
  else
    let d := ncols Xtr
    let sorted := argsortAsc (fun j => np_var Xtr j) d
    let top_indices := if n_features = 0 then sorted else sorted.drop (d - n_features)
    (selectCols Xtr top_indices, selectCols Xte top_indices, top_indices)

end FeatureSelection

/-- The suffix of an ascending argsort: it has length `n`, consists of
distinct indices below `d`, and every index outside it has a key no larger
than any index inside it. -/
theorem argsort_drop_top (key : ℕ → ℚ) (d n : ℕ) (hn : n ≤ d) :
    ((argsortAsc key d).drop (d - n)).length = n ∧
    ((argsortAsc key d).drop (d - n)).Nodup ∧
    (∀ i ∈ (argsortAsc key d).drop (d - n), i < d) ∧
    (∀ i ∈ (argsortAsc key d).drop (d - n), ∀ j, j < d →
      j ∉ (argsortAsc key d).drop (d - n) → key j ≤ key i) := by
  have hperm : (argsortAsc key d).Perm (List.range d) := List.perm_insertionSort _ _
  have hlen : (argsortAsc key d).length = d := by
    rw [hperm.length_eq, List.length_range]
  haveI : IsTotal ℕ (fun i j => key i ≤ key j) := ⟨fun a b => le_total (key a) (key b)⟩
  haveI : IsTrans ℕ (fun i j => key i ≤ key j) := ⟨fun a b c hab hbc => le_trans hab hbc⟩
  have hsorted : List.Sorted (fun i j => key i ≤ key j) (argsortAsc key d) :=
    List.sorted_insertionSort _ _
  have hnodup : (argsortAsc key d).Nodup := hperm.nodup_iff.mpr (List.nodup_range d)
  have hmem : ∀ i, i ∈ argsortAsc key d ↔ i < d := by
    intro i
    rw [hperm.mem_iff, List.mem_range]
  refine ⟨?_, ?_, ?_, ?_⟩
  · rw [List.length_drop, hlen]
    omega
  · exact hnodup.sublist (List.drop_sublist _ _)
  · intro i hi
    exact (hmem i).mp ((List.drop_sublist _ _).mem hi)
  · intro i hi j hj hjnot
    have hjin : j ∈ argsortAsc key d := (hmem j).mpr hj
    have hjtake : j ∈ (argsortAsc key d).take (d - n) := by
      have hj2 : j ∈ (argsortAsc key d).take (d - n) ++ (argsortAsc key d).drop (d - n) := by
        rw [List.take_append_drop]
        exact hjin
      rcases List.mem_append.mp hj2 with h | h
      · exact h
      · exact absurd h hjnot
    exact hsorted.rel_of_mem_take_of_mem_drop hjtake hi

/-- C9 (amended): when the training matrix has at most `n_features` columns
both matrices pass through unchanged with the full index range; otherwise,
for `n_features ≥ 1`, the returned index list has length `n_features` and
consists of distinct column indices whose training variances are all at
least the variance of every unselected column, and both matrices are
projected onto exactly those indices. -/
theorem select_features_top_variance (Xtr Xte : Mat) (n_features : ℕ) :
    (ncols Xtr ≤ n_features →
      select_features Xtr Xte n_features = (Xtr, Xte, List.range (ncols Xtr))) ∧
    (n_features < ncols Xtr → 1 ≤ n_features →
      (select_features Xtr Xte n_features).2.2.length = n_features ∧
      (select_features Xtr Xte n_features).2.2.Nodup ∧
      (∀ i ∈ (select_features Xtr Xte n_features).2.2, i < ncols Xtr) ∧
      (∀ i ∈ (select_features Xtr Xte n_features).2.2, ∀ j, j < ncols Xtr →
        j ∉ (select_features Xtr Xte n_features).2.2 → np_var Xtr j ≤ np_var Xtr i) ∧
      (select_features Xtr Xte n_features).1 =
        selectCols Xtr (select_features Xtr Xte n_features).2.2 ∧
      (select_features Xtr Xte n_features).2.1 =
        selectCols Xte (select_features Xtr Xte n_features).2.2) := by
  constructor
  · intro hle
    unfold select_features
    rw [if_pos hle]
  · intro hlt hpos
    have hne : ¬ (ncols Xtr ≤ n_features) := by omega
    have hnz : ¬ (n_features = 0) := by omega
    have hsel : select_features Xtr Xte n_features =
        (selectCols Xtr ((argsortAsc (fun j => np_var Xtr j) (ncols Xtr)).drop
            (ncols Xtr - n_features)),
         selectCols Xte ((argsortAsc (fun j => np_var Xtr j) (ncols Xtr)).drop
            (ncols Xtr - n_features)),
         (argsortAsc (fun j => np_var Xtr j) (ncols Xtr)).drop (ncols Xtr - n_features)) := by
      unfold select_features
      rw [if_neg hne]
      simp only [if_neg hnz]
    rw [hsel]
    have htop := argsort_drop_top (fun j => np_var Xtr j) (ncols Xtr) n_features (by omega)
    exact ⟨htop.1, htop.2.1, htop.2.2.1, htop.2.2.2, rfl, rfl⟩

/-- C9 witness: the amended theorem applied to a 2-column training matrix
with `n_features = 1` (column variances 0 and 1). -/
theorem select_features_top_variance_witness :
    (1 : ℕ) < ncols [[(0 : ℚ), 0], [0, 2]] ∧
    ((select_features [[(0 : ℚ), 0], [0, 2]] [[5, 6]] 1).2.2.length = 1 ∧
     (select_features [[(0 : ℚ), 0], [0, 2]] [[5, 6]] 1).2.2.Nodup ∧
     (∀ i ∈ (select_features [[(0 : ℚ), 0], [0, 2]] [[5, 6]] 1).2.2,
        i < ncols [[(0 : ℚ), 0], [0, 2]]) ∧
     (∀ i ∈ (select_features [[(0 : ℚ), 0], [0, 2]] [[5, 6]] 1).2.2,
        ∀ j, j < ncols [[(0 : ℚ), 0], [0, 2]] →
        j ∉ (select_features [[(0 : ℚ), 0], [0, 2]] [[5, 6]] 1).2.2 →
        np_var [[(0 : ℚ), 0], [0, 2]] j ≤ np_var [[(0 : ℚ), 0], [0, 2]] i) ∧
     (select_features [[(0 : ℚ), 0], [0, 2]] [[5, 6]] 1).1 =
        selectCols [[(0 : ℚ), 0], [0, 2]] (select_features [[(0 : ℚ), 0], [0, 2]] [[5, 6]] 1).2.2 ∧
     (select_features [[(0 : ℚ), 0], [0, 2]] [[5, 6]] 1).2.1 =
        selectCols [[(5 : ℚ), 6]] (select_features [[(0 : ℚ), 0], [0, 2]] [[5, 6]] 1).2.2) :=
  ⟨by decide, (select_features_top_variance [[(0 : ℚ), 0], [0, 2]] [[5, 6]] 1).2
    (by decide) (by decide)⟩

/-- C9 counterexample to the unamended claim: with `n_features = 0` and a
1-column training matrix (so the matrix has more than `n_features`
columns), the Python slice `variances[-0:]` is the whole array, and the
returned index list is `[0]` — its length is 1, not `n_features = 0`. -/
theorem select_features_nfeatures_zero_counterexample :
    ¬ (ncols [[(1 : ℚ)], [2]] ≤ 0) ∧
    (select_features [[(1 : ℚ)], [2]] [[3]] 0).2.2 = [0] ∧
    (select_features [[(1 : ℚ)], [2]] [[3]] 0).2.2.length ≠ 0 := by
  refine ⟨by decide, rfl, by decide⟩

section QuantumSampling

/-!  `sample_for_quantum` from `src/quantum_solver.py`: stratified
subsampling of the training set.  `np.random.choice(pool, k, replace=False)`
and `np.random.shuffle` are abstract functions `choice` and `shuffle`; their
documented contracts (a draw without replacement yields `k` distinct
elements of the pool; a shuffle permutes) are hypotheses of the theorem. -/

/-- `np.where(y == v)[0]`: positions of label `v`, in ascending order. -/
def np_where_eq (y : List ℤ) (v : ℤ) : List ℕ :=
  (List.range y.length).filter (fun i => y.getD i 0 = v)

/-- `sample_for_quantum(X_train, y_train, max_samples)`: pass-through when
within budget, otherwise `min(#fraud, max_samples // 2)` fraud indices and
`max_samples - n_fraud` normal indices drawn without replacement, shuffled,
and used to index both arrays. -/
def sample_for_quantum (choice : List ℕ → ℕ → List ℕ) (shuffle : List ℕ → List ℕ)
    (X : Mat) (y : List ℤ) (max_samples : ℕ) : Mat × List ℤ :=
  if X.length ≤ max_samples then (X, y)
  else
    let fraud_indices := np_where_eq y 1
    let normal_indices := np_where_eq y 0
    let n_fraud := min fraud_indices.length (max_samples / 2)
    let n_normal := max_samples - n_fraud
    let fraud_sample := choice fraud_indices n_fraud
    let normal_sample := choice normal_indices n_normal
    let sample_indices := shuffle (fraud_sample ++ normal_sample)
    (sample_indices.map (fun i => X.getD i []), sample_indices.map (fun i => y.getD i 0))

end QuantumSampling

/-- Membership in `np_where_eq`: an in-range position carrying label `v`. -/
theorem np_where_eq_mem (y : List ℤ) (v : ℤ) (i : ℕ) :
    i ∈ np_where_eq y v ↔ i < y.length ∧ y.getD i 0 = v := by
  simp [np_where_eq, List.mem_filter, List.mem_range]

/-- `np_where_eq` lists distinct positions. -/
theorem np_where_eq_nodup (y : List ℤ) (v : ℤ) : (np_where_eq y v).Nodup :=
  (List.nodup_range y.length).filter _

/-- Shuffling a fraud-index draw concatenated with a normal-index draw:
distinct indices, total length, in-range indices, and the label counts of
the indexed label vector. -/
theorem stratified_core (y : List ℤ) (fs ns shuffled : List ℕ)
    (hperm : shuffled.Perm (fs ++ ns))
    (hfs_mem : ∀ i ∈ fs, i ∈ np_where_eq y 1)
    (hns_mem : ∀ i ∈ ns, i ∈ np_where_eq y 0)
    (hfs_nodup : fs.Nodup) (hns_nodup : ns.Nodup) :
    shuffled.Nodup ∧ shuffled.length = fs.length + ns.length ∧
    (∀ i ∈ shuffled, i < y.length) ∧
    (shuffled.map (fun i => y.getD i 0)).count 1 = fs.length ∧
    (shuffled.map (fun i => y.getD i 0)).count 0 = ns.length := by
  have hdisj : List.Disjoint fs ns := by
    intro a ha han
    have h1 : y.getD a 0 = 1 := ((np_where_eq_mem y 1 a).mp (hfs_mem a ha)).2
    have h0 : y.getD a 0 = 0 := ((np_where_eq_mem y 0 a).mp (hns_mem a han)).2
    rw [h1] at h0
    exact absurd h0 (by norm_num)
  have hccount1 : ((fs ++ ns).map (fun i => y.getD i 0)).count 1 = fs.length := by
    rw [List.map_append, List.count_append]
    have hA : (fs.map (fun i => y.getD i 0)).count 1 = (fs.map (fun i => y.getD i 0)).length := by
      rw [List.count_eq_length]
      intro b hb
      rcases List.mem_map.mp hb with ⟨a, ha, rfl⟩
      exact (((np_where_eq_mem y 1 a).mp (hfs_mem a ha)).2).symm
    have hB : (ns.map (fun i => y.getD i 0)).count 1 = 0 := by
      rw [List.count_eq_zero]
      intro hb
      rcases List.mem_map.mp hb with ⟨a, ha, hfa⟩
      have h0 : y.getD a 0 = 0 := ((np_where_eq_mem y 0 a).mp (hns_mem a ha)).2
      rw [h0] at hfa
      exact absurd hfa (by norm_num)
    rw [hA, hB, List.length_map]
    omega
  have hccount0 : ((fs ++ ns).map (fun i => y.getD i 0)).count 0 = ns.length := by
    rw [List.map_append, List.count_append]
    have hA : (fs.map (fun i => y.getD i 0)).count 0 = 0 := by
      rw [List.count_eq_zero]
      intro hb
      rcases List.mem_map.mp hb with ⟨a, ha, hfa⟩
      have h1 : y.getD a 0 = 1 := ((np_where_eq_mem y 1 a).mp (hfs_mem a ha)).2
      rw [h1] at hfa
      exact absurd hfa (by norm_num)
    have hB : (ns.map (fun i => y.getD i 0)).count 0 = (ns.map (fun i => y.getD i 0)).length := by
      rw [List.count_eq_length]
      intro b hb
      rcases List.mem_map.mp hb with ⟨a, ha, rfl⟩
      exact (((np_where_eq_mem y 0 a).mp (hns_mem a ha)).2).symm
    rw [hA, hB, List.length_map]
    omega
  refine ⟨?_, ?_, ?_, ?_, ?_⟩
  · exact hperm.nodup_iff.mpr (hfs_nodup.append hns_nodup hdisj)
  · rw [hperm.length_eq, List.length_append]
  · intro i hi
    rcases List.mem_append.mp (hperm.subset hi) with h | h
    · exact ((np_where_eq_mem y 1 i).mp (hfs_mem i h)).1
    · exact ((np_where_eq_mem y 0 i).mp (hns_mem i h)).1
  · rw [(hperm.map (fun i => y.getD i 0)).count_eq]
    exact hccount1
  · rw [(hperm.map (fun i => y.getD i 0)).count_eq]
    exact hccount0

/-- The C10 property at one input: pass-through within budget; otherwise a
stratified sample of exactly `max_samples` rows — `min(#fraud, max/2)` with
label 1 and the remainder with label 0 — indexed by distinct in-range row
positions shared by the feature matrix and the label vector. -/
def StratifiedSampleOK (choice : List ℕ → ℕ → List ℕ) (shuffle : List ℕ → List ℕ)
    (X : Mat) (y : List ℤ) (max_samples : ℕ) : Prop :=
  (X.length ≤ max_samples → sample_for_quantum choice shuffle X y max_samples = (X, y)) ∧
  (max_samples < X.length →
    (sample_for_quantum choice shuffle X y max_samples).1.length = max_samples ∧
    (sample_for_quantum choice shuffle X y max_samples).2.length = max_samples ∧
    (sample_for_quantum choice shuffle X y max_samples).2.count 1 =
      min (np_where_eq y 1).length (max_samples / 2) ∧
    (sample_for_quantum choice shuffle X y max_samples).2.count 0 =
      max_samples - min (np_where_eq y 1).length (max_samples / 2) ∧
    ∃ idx : List ℕ, idx.Nodup ∧ idx.length = max_samples ∧ (∀ i ∈ idx, i < y.length) ∧
      (sample_for_quantum choice shuffle X y max_samples).1 =
        idx.map (fun i => X.getD i []) ∧
      (sample_for_quantum choice shuffle X y max_samples).2 =
        idx.map (fun i => y.getD i 0))

/-- C10: under the documented contracts of `np.random.choice(replace=False)`
and `np.random.shuffle`, and the precondition that the normal class can
supply the remainder, `sample_for_quantum` passes small sets through and
otherwise returns a stratified sample of exactly `max_samples` distinct
aligned rows: `min(#fraud, max_samples // 2)` fraud rows, remainder normal. -/
theorem sample_for_quantum_stratified
    (choice : List ℕ → ℕ → List ℕ) (shuffle : List ℕ → List ℕ)
    (X : Mat) (y : List ℤ) (max_samples : ℕ)
    (hchoiceLen : ∀ pool k, k ≤ pool.length → (choice pool k).length = k)
    (hchoiceNodup : ∀ pool k, k ≤ pool.length → pool.Nodup → (choice pool k).Nodup)
    (hchoiceMem : ∀ pool k, k ≤ pool.length → ∀ i ∈ choice pool k, i ∈ pool)
    (hshuffle : ∀ l, (shuffle l).Perm l)
    (hlen : y.length = X.length)
    (hprec : max_samples - min (np_where_eq y 1).length (max_samples / 2)
        ≤ (np_where_eq y 0).length) :
    StratifiedSampleOK choice shuffle X y max_samples := by
  constructor
  · intro hle
    unfold sample_for_quantum
    rw [if_pos hle]
  · intro hgt
    have hne : ¬ (X.length ≤ max_samples) := by omega
    have hnf_le : min (np_where_eq y 1).length (max_samples / 2) ≤ (np_where_eq y 1).length :=
      min_le_left _ _
    have hres : sample_for_quantum choice shuffle X y max_samples =
        ((shuffle (choice (np_where_eq y 1) (min (np_where_eq y 1).length (max_samples / 2)) ++
            choice (np_where_eq y 0)
              (max_samples - min (np_where_eq y 1).length (max_samples / 2)))).map
          (fun i => X.getD i []),
         (shuffle (choice (np_where_eq y 1) (min (np_where_eq y 1).length (max_samples / 2)) ++
            choice (np_where_eq y 0)
              (max_samples - min (np_where_eq y 1).length (max_samples / 2)))).map
          (fun i => y.getD i 0)) := by
      unfold sample_for_quantum
      rw [if_neg hne]
    have hcore := stratified_core y
      (choice (np_where_eq y 1) (min (np_where_eq y 1).length (max_samples / 2)))
      (choice (np_where_eq y 0) (max_samples - min (np_where_eq y 1).length (max_samples / 2)))
      (shuffle (choice (np_where_eq y 1) (min (np_where_eq y 1).length (max_samples / 2)) ++
        choice (np_where_eq y 0) (max_samples - min (np_where_eq y 1).length (max_samples / 2))))
      (hshuffle _)
      (hchoiceMem _ _ hnf_le)
      (hchoiceMem _ _ hprec)
      (hchoiceNodup _ _ hnf_le (np_where_eq_nodup y 1))
      (hchoiceNodup _ _ hprec (np_where_eq_nodup y 0))
    have hfs_len := hchoiceLen _ _ hnf_le
    have hns_len := hchoiceLen _ _ hprec
    have hnf_max : min (np_where_eq y 1).length (max_samples / 2) ≤ max_samples := by
      have : max_samples / 2 ≤ max_samples := Nat.div_le_self _ _
      omega
    rw [hres]
    refine ⟨?_, ?_, ?_, ?_, ?_⟩
    · rw [List.length_map, hcore.2.1, hfs_len, hns_len]
      omega
    · rw [List.length_map, hcore.2.1, hfs_len, hns_len]
      omega
    · rw [hcore.2.2.2.1, hfs_len]
    · rw [hcore.2.2.2.2, hns_len]
    · refine ⟨_, hcore.1, ?_, ?_, rfl, rfl⟩
      · rw [hcore.2.1, hfs_len, hns_len]
        omega
      · intro i hi
        have := hcore.2.2.1 i hi
        omega

/-- C10 witness: the theorem applied to `choice = take`, `shuffle = id`, a
3-row training set with one fraud row, and `max_samples = 2`. -/
theorem sample_for_quantum_stratified_witness :
    StratifiedSampleOK (fun pool k => pool.take k) (fun l => l)
      [[(1 : ℚ)], [2], [3]] [1, 0, 0] 2 :=
  sample_for_quantum_stratified (fun pool k => pool.take k) (fun l => l)
    [[(1 : ℚ)], [2], [3]] [1, 0, 0] 2
    (fun pool k hk => by rw [List.length_take]; omega)
    (fun pool k _ hnd => hnd.sublist (List.take_sublist _ _))
    (fun pool k _ i hi => (List.take_sublist _ _).subset hi)
    (fun l => List.Perm.refl l)
    (by decide)
    (by decide)

section GreedyFeatureSelection

/-!  `QuantumFeatureSelector.select_features_greedy` from
`src/model/qsvm_classifier.py`: forward greedy hill-climbing.  The inner
`for feature in remaining` loop is `greedyInner` (accumulating
`best_feature` / `current_best_score`); the outer `for i in
range(max_features)` loop is `greedyOuter` on a fuel argument. -/

/-- The inner candidate loop: tries every remaining feature appended to the
current subset, keeping the first candidate that strictly improves on the
running best score (then later candidates must strictly improve on it). -/
def greedyInner (score : List ℕ → ℚ) (selected : List ℕ) :
    List ℕ → Option ℕ → ℚ → Option ℕ × ℚ
  | [], best_feature, current_best => (best_feature, current_best)
  | f :: rest, best_feature, current_best =>
    if score (selected ++ [f]) > current_best then
      greedyInner score selected rest (some f) (score (selected ++ [f]))
    else
      greedyInner score selected rest best_feature current_best

/-- The outer selection loop: up to the fuel (`max_features`) rounds; a
round appends the winning candidate, erases it from the remaining set and
updates the best score, or stops when no candidate improved. -/
def greedyOuter (score : List ℕ → ℚ) : ℕ → List ℕ → List ℕ → ℚ → List ℕ
  | 0, selected, _, _ => selected
  | k + 1, selected, remaining, best_score =>
    match greedyInner score selected remaining none best_score with
    | (some f, s) => greedyOuter score k (selected ++ [f]) (remaining.erase f) s
    | (none, _) => selected

/-- The score of one candidate subset: a fresh `QSVM` (reps 2, full
entanglement, the selector's `C`) trained on the projected training data
and scored by validation accuracy, as in the body of the inner loop. -/
def qsvmTrialScore {M : Type} (env : QSVMEnv M) (Xtr : Mat) (ytr : List ℤ)
    (Xv : Mat) (yv : List ℤ) (C : ℚ) (trial : List ℕ) : ℚ :=
  QSVM.score env
    (QSVM.fit env (QSVM.make M trial.length 2 Entanglement.full C) (selectCols Xtr trial) ytr)
    (selectCols Xv trial) yv

/-- `QuantumFeatureSelector.select_features_greedy`: the greedy loop started
from the empty subset, the full feature range, and best score `0.0`. -/
def select_features_greedy {M : Type} (env : QSVMEnv M) (n_features max_features : ℕ)
    (C : ℚ) (Xtr : Mat) (ytr : List ℤ) (Xv : Mat) (yv : List ℤ) : List ℕ :=
  greedyOuter (qsvmTrialScore env Xtr ytr Xv yv C) max_features [] (List.range n_features) 0

end GreedyFeatureSelection

/-- The inner loop's running best never decreases, and on exit it bounds
the score of every candidate it examined. -/
theorem greedyInner_le (score : List ℕ → ℚ) (sel : List ℕ) :
    ∀ (l : List ℕ) (bf : Option ℕ) (cb : ℚ),
      cb ≤ (greedyInner score sel l bf cb).2 ∧
      ∀ g ∈ l, score (sel ++ [g]) ≤ (greedyInner score sel l bf cb).2 := by
  intro l
  induction l with
  | nil =>
      intro bf cb
      exact ⟨le_refl _, fun g hg => absurd hg (List.not_mem_nil g)⟩
  | cons f rest ih =>
      intro bf cb
      by_cases h : score (sel ++ [f]) > cb
      · have hstep : greedyInner score sel (f :: rest) bf cb =
            greedyInner score sel rest (some f) (score (sel ++ [f])) := by
          simp only [greedyInner]
          rw [if_pos h]
        rw [hstep]
        rcases ih (some f) (score (sel ++ [f])) with ⟨h1, h2⟩
        refine ⟨le_trans (le_of_lt h) h1, ?_⟩
        intro g hg
        rcases List.mem_cons.mp hg with rfl | hg'
        · exact h1
        · exact h2 g hg'
      · have hstep : greedyInner score sel (f :: rest) bf cb =
            greedyInner score sel rest bf cb := by
          simp only [greedyInner]
          rw [if_neg h]
        rw [hstep]
        rcases ih bf cb with ⟨h1, h2⟩
        refine ⟨h1, ?_⟩
        intro g hg
        rcases List.mem_cons.mp hg with rfl | hg'
        · exact le_trans (not_lt.mp h) h1
        · exact h2 g hg'

/-- If the inner loop exits with a winning candidate, it either carried it
in unchanged, or the candidate comes from the examined list, the exit score
is that candidate's score, and it strictly improves on the entry best. -/
theorem greedyInner_fst_some (score : List ℕ → ℚ) (sel : List ℕ) :
    ∀ (l : List ℕ) (bf : Option ℕ) (cb : ℚ) (f : ℕ),
      (greedyInner score sel l bf cb).1 = some f →
      (bf = some f ∧ (greedyInner score sel l bf cb).2 = cb) ∨
      (f ∈ l ∧ (greedyInner score sel l bf cb).2 = score (sel ++ [f]) ∧
        cb < score (sel ++ [f])) := by
  intro l
  induction l with
  | nil =>
      intro bf cb f hf
      exact Or.inl ⟨hf, rfl⟩
  | cons f0 rest ih =>
      intro bf cb f hf
      by_cases h : score (sel ++ [f0]) > cb
      · have hstep : greedyInner score sel (f0 :: rest) bf cb =
            greedyInner score sel rest (some f0) (score (sel ++ [f0])) := by
          simp only [greedyInner]
          rw [if_pos h]
        rw [hstep] at hf ⊢
        rcases ih (some f0) (score (sel ++ [f0])) f hf with ⟨heq, hval⟩ | ⟨hmem, hval, hlt⟩
        · have hf0 : f0 = f := Option.some.inj heq
          subst hf0
          exact Or.inr ⟨List.mem_cons_self f0 rest, hval, h⟩
        · exact Or.inr ⟨List.mem_cons_of_mem f0 hmem, hval, lt_trans h hlt⟩
      · have hstep : greedyInner score sel (f0 :: rest) bf cb =
            greedyInner score sel rest bf cb := by
          simp only [greedyInner]
          rw [if_neg h]
        rw [hstep] at hf ⊢
        rcases ih bf cb f hf with ⟨heq, hval⟩ | ⟨hmem, hval, hlt⟩
        · exact Or.inl ⟨heq, hval⟩
        · exact Or.inr ⟨List.mem_cons_of_mem f0 hmem, hval, hlt⟩

/-- If the inner loop exits without a candidate, it entered without one and
its best score is unchanged. -/
theorem greedyInner_fst_none (score : List ℕ → ℚ) (sel : List ℕ) :
    ∀ (l : List ℕ) (bf : Option ℕ) (cb : ℚ),
      (greedyInner score sel l bf cb).1 = none →
      bf = none ∧ (greedyInner score sel l bf cb).2 = cb := by
  intro l
  induction l with
  | nil =>
      intro bf cb hf
      exact ⟨hf, rfl⟩
  | cons f0 rest ih =>
      intro bf cb hf
      by_cases h : score (sel ++ [f0]) > cb
      · have hstep : greedyInner score sel (f0 :: rest) bf cb =
            greedyInner score sel rest (some f0) (score (sel ++ [f0])) := by
          simp only [greedyInner]
          rw [if_pos h]
        rw [hstep] at hf
        rcases ih (some f0) (score (sel ++ [f0])) hf with ⟨habs, _⟩
        exact absurd habs (by simp)
      · have hstep : greedyInner score sel (f0 :: rest) bf cb =
            greedyInner score sel rest bf cb := by
          simp only [greedyInner]
          rw [if_neg h]
        rw [hstep] at hf ⊢
        exact ih bf cb hf

/-- Full invariant of the outer greedy loop: the result extends the current
subset, stays distinct and inside the pool, adds at most one feature per
fuel unit, every added prefix strictly improves on the previous best score,
each added feature scores at least as well as every candidate available at
its round, and an early stop means no remaining candidate improved. -/
theorem greedyOuter_spec (score : List ℕ → ℚ) (pool : List ℕ) :
    ∀ (k : ℕ) (selected remaining : List ℕ) (best : ℚ),
      selected.Nodup →
      (∀ g, g ∈ remaining ↔ (g ∈ pool ∧ g ∉ selected)) →
      remaining.Nodup →
      (∀ i ∈ selected, i ∈ pool) →
      best = (if selected = [] then 0 else score selected) →
      (∃ t, greedyOuter score k selected remaining best = selected ++ t) ∧
      (greedyOuter score k selected remaining best).Nodup ∧
      (∀ i ∈ greedyOuter score k selected remaining best, i ∈ pool) ∧
      (greedyOuter score k selected remaining best).length ≤ selected.length + k ∧
      (∀ j, selected.length ≤ j → j < (greedyOuter score k selected remaining best).length →
        (if j = 0 then 0 else score ((greedyOuter score k selected remaining best).take j)) <
          score ((greedyOuter score k selected remaining best).take (j + 1))) ∧
      (∀ j, selected.length ≤ j → j < (greedyOuter score k selected remaining best).length →
        ∀ g ∈ pool, g ∉ (greedyOuter score k selected remaining best).take j →
          score ((greedyOuter score k selected remaining best).take j ++ [g]) ≤
            score ((greedyOuter score k selected remaining best).take (j + 1))) ∧
      ((greedyOuter score k selected remaining best).length < selected.length + k →
        ∀ g ∈ pool, g ∉ greedyOuter score k selected remaining best →
          score (greedyOuter score k selected remaining best ++ [g]) ≤
            (if greedyOuter score k selected remaining best = [] then 0
             else score (greedyOuter score k selected remaining best))) := by
  intro k
  induction k with
  | zero =>
      intro selected remaining best hsel hrem hremN hselP hbest
      simp only [greedyOuter]
      refine ⟨⟨[], by simp⟩, hsel, hselP, by omega, ?_, ?_, ?_⟩
      · intro j hj1 hj2
        exact absurd hj2 (by omega)
      · intro j hj1 hj2
        exact absurd hj2 (by omega)
      · intro hlt
        exact absurd hlt (by omega)
  | succ k ih =>
      intro selected remaining best hsel hrem hremN hselP hbest
      rcases hinner : greedyInner score selected remaining none best with ⟨bf, cb⟩
      cases bf with
      | none =>
          have hres : greedyOuter score (k + 1) selected remaining best = selected := by
            simp only [greedyOuter]
            rw [hinner]
          rw [hres]
          have hbound : ∀ g ∈ pool, g ∉ selected → score (selected ++ [g]) ≤
              (if selected = [] then 0 else score selected) := by
            intro g hg hgs
            have hginr : g ∈ remaining := (hrem g).mpr ⟨hg, hgs⟩
            have hle := (greedyInner_le score selected remaining none best).2 g hginr
            have h1 : (greedyInner score selected remaining none best).1 = none := by
              rw [hinner]
            have hcb : (greedyInner score selected remaining none best).2 = best :=
              (greedyInner_fst_none score selected remaining none best h1).2
            rw [hcb, hbest] at hle
            exact hle
          refine ⟨⟨[], by simp⟩, hsel, hselP, by omega, ?_, ?_, ?_⟩
          · intro j hj1 hj2
            exact absurd hj2 (by omega)
          · intro j hj1 hj2
            exact absurd hj2 (by omega)
          · intro _ g hg hgs
            exact hbound g hg hgs
      | some f =>
          have hres : greedyOuter score (k + 1) selected remaining best =
              greedyOuter score k (selected ++ [f]) (remaining.erase f) cb := by
            simp only [greedyOuter]
            rw [hinner]
          have hfst : (greedyInner score selected remaining none best).1 = some f := by
            rw [hinner]
          have hsnd : (greedyInner score selected remaining none best).2 = cb := by
            rw [hinner]
          rcases greedyInner_fst_some score selected remaining none best f hfst with
            ⟨habs, _⟩ | ⟨hfmem, hval, hlt⟩
          · exact absurd habs (by simp)
          · have hcbval : cb = score (selected ++ [f]) := by
              rw [hsnd] at hval
              exact hval
            have hlt' : best < score (selected ++ [f]) := hlt
            have hfpool : f ∈ pool := ((hrem f).mp hfmem).1
            have hfnot : f ∉ selected := ((hrem f).mp hfmem).2
            have hsel' : (selected ++ [f]).Nodup := by
              refine hsel.append (List.nodup_singleton f) ?_
              intro a ha hmem
              rw [List.mem_singleton] at hmem
              subst hmem
              exact hfnot ha
            have hrem' : ∀ g, g ∈ remaining.erase f ↔ (g ∈ pool ∧ g ∉ selected ++ [f]) := by
              intro g
              rw [hremN.mem_erase_iff]
              constructor
              · rintro ⟨hne, hginr⟩
                rcases (hrem g).mp hginr with ⟨hgp, hgs⟩
                refine ⟨hgp, ?_⟩
                intro hmem
                rcases List.mem_append.mp hmem with h | h
                · exact hgs h
                · rw [List.mem_singleton] at h
                  exact hne h
              · rintro ⟨hgp, hgs⟩
                have hne : g ≠ f := by
                  intro hgf
                  subst hgf
                  exact hgs (List.mem_append.mpr (Or.inr (List.mem_singleton.mpr rfl)))
                have hgs' : g ∉ selected := fun h =>
                  hgs (List.mem_append.mpr (Or.inl h))
                exact ⟨hne, (hrem g).mpr ⟨hgp, hgs'⟩⟩
            have hremN' : (remaining.erase f).Nodup := hremN.erase f
            have hselP' : ∀ i ∈ selected ++ [f], i ∈ pool := by
              intro i hi
              rcases List.mem_append.mp hi with h | h
              · exact hselP i h
              · rw [List.mem_singleton] at h
                subst h
                exact hfpool
            have hbest' : cb = (if selected ++ [f] = [] then 0 else score (selected ++ [f])) := by
              rw [if_neg (by simp)]
              exact hcbval
            have IH := ih (selected ++ [f]) (remaining.erase f) cb hsel' hrem' hremN' hselP' hbest'
            rw [hres]
            obtain ⟨⟨t, hprefixEq⟩, hN, hP, hL, hD, hE, hF⟩ := IH
            have hlen' : (selected ++ [f]).length = selected.length + 1 := by simp
            have hpre : ∃ t2, greedyOuter score k (selected ++ [f]) (remaining.erase f) cb =
                selected ++ t2 := by
              refine ⟨f :: t, ?_⟩
              rw [hprefixEq]
              simp
            have htakeSel :
                (greedyOuter score k (selected ++ [f]) (remaining.erase f) cb).take
                  selected.length = selected := by
              rcases hpre with ⟨t2, ht2⟩
              rw [ht2, List.take_left]
            have htakeSelF :
                (greedyOuter score k (selected ++ [f]) (remaining.erase f) cb).take
                  (selected.length + 1) = selected ++ [f] := by
              rw [hprefixEq, ← hlen', List.take_left]
            have hbesteq : (if selected.length = 0 then (0 : ℚ) else score selected) = best := by
              rw [hbest]
              by_cases hnil : selected = []
              · rw [if_pos (by rw [hnil]; rfl), if_pos hnil]
              · rw [if_neg (fun h0 => hnil (List.length_eq_zero.mp h0)), if_neg hnil]
            refine ⟨hpre, hN, hP, ?_, ?_, ?_, ?_⟩
            · rw [hlen'] at hL
              omega
            · intro j hj1 hj2
              rcases Nat.eq_or_lt_of_le hj1 with heq | hlt2
              · subst heq
                rw [htakeSel, htakeSelF, hbesteq]
                exact hlt'
              · exact hD j (by rw [hlen']; omega) hj2
            · intro j hj1 hj2 g hg hgnot
              rcases Nat.eq_or_lt_of_le hj1 with heq | hlt2
              · subst heq
                rw [htakeSel] at hgnot
                rw [htakeSel, htakeSelF]
                have hginr : g ∈ remaining := (hrem g).mpr ⟨hg, hgnot⟩
                have hle := (greedyInner_le score selected remaining none best).2 g hginr
                rw [hsnd, hcbval] at hle
                exact hle
              · exact hE j (by rw [hlen']; omega) hj2 g hg hgnot
            · intro hlt3 g hg hgnot
              exact hF (by rw [hlen']; omega) g hg hgnot

/-- The C2 property of a greedy selection result `res` under score function
`score` over `n` features with at most `max` rounds: distinct in-range
indices, at most `max` of them, each appended feature strictly improves the
best score so far (which starts at 0), each appended feature scores at
least as well as every candidate available in its round, and an early stop
means no remaining candidate strictly improved. -/
def GreedySelectionOK (score : List ℕ → ℚ) (n max : ℕ) (res : List ℕ) : Prop :=
  res.Nodup ∧ (∀ i ∈ res, i < n) ∧ res.length ≤ max ∧
  (∀ j, j < res.length →
    (if j = 0 then 0 else score (res.take j)) < score (res.take (j + 1))) ∧
  (∀ j, j < res.length → ∀ g, g < n → g ∉ res.take j →
    score (res.take j ++ [g]) ≤ score (res.take (j + 1))) ∧
  (res.length < max → ∀ g, g < n → g ∉ res →
    score (res ++ [g]) ≤ (if res = [] then 0 else score res))

/-- C2: `select_features_greedy` is forward greedy hill-climbing over the
per-candidate QSVM validation score: at most `max_features` rounds, every
appended feature strictly improves the best validation score and beats
every candidate still available in that round, the loop stops as soon as no
candidate strictly improves, and the result is a list of distinct feature
indices in selection order. -/
theorem select_features_greedy_hill_climbing (M : Type) (env : QSVMEnv M)
    (n_features max_features : ℕ) (C : ℚ) (Xtr Xv : Mat) (ytr yv : List ℤ) :
    GreedySelectionOK (qsvmTrialScore env Xtr ytr Xv yv C) n_features max_features
      (select_features_greedy env n_features max_features C Xtr ytr Xv yv) := by
  unfold select_features_greedy
  have h := greedyOuter_spec (qsvmTrialScore env Xtr ytr Xv yv C) (List.range n_features)
    max_features [] (List.range n_features) 0 List.nodup_nil
    (fun g => by simp) (List.nodup_range _) (fun i hi => absurd hi (List.not_mem_nil i))
    (by simp)
  obtain ⟨hpre, hN, hP, hL, hD, hE, hF⟩ := h
  refine ⟨hN, fun i hi => List.mem_range.mp (hP i hi), by simpa using hL, ?_, ?_, ?_⟩
  · intro j hj
    exact hD j (by simp) hj
  · intro j hj g hg hnot
    exact hE j (by simp) hj g (List.mem_range.mpr hg) hnot
  · intro hlt g hg hnot
    exact hF (by simpa using hlt) g (List.mem_range.mpr hg) hnot

/-- A trivial QSVM environment (unit models, zero kernel, constant-zero
predictions), used to witness C2 at a concrete input. -/
def qsvmEnvTrivial : QSVMEnv Unit :=
  { kern := fun _ _ _ => 0
    svcFit := fun _ _ _ => ()
    svcPredict := fun _ K => K.map (fun _ => 0)
    svcPredictProba := fun _ K => K.map (fun _ => (0, 0)) }

/-- C2 witness: the theorem at a concrete 2-feature instance. -/
theorem select_features_greedy_hill_climbing_witness :
    GreedySelectionOK (qsvmTrialScore qsvmEnvTrivial [[1], [2]] [1, 0] [[1]] [1] 1) 2 1
      (select_features_greedy qsvmEnvTrivial 2 1 1 [[1], [2]] [1, 0] [[1]] [1]) :=
  select_features_greedy_hill_climbing Unit qsvmEnvTrivial 2 1 1 [[1], [2]] [[1]] [1, 0] [1]

section QuantumSolverMain

/-!  `main` from `src/quantum_solver.py`.  The external pieces (dataset on
disk, QCentroid backend check, numpy randomness) are the fields of
`SolverEnv`; the in-repo steps reuse `select_features`,
`sample_for_quantum`, and the `QSVM` embedding.  Each step is tagged and
`main`'s trace records the order in which the steps run. -/

/-- The eight steps of `main`, in source order. -/
inductive SolverStep : Type
  | loadData
  | verifyBackend
  | featureSelection
  | sampling
  | training
  | evaluation
  | saving
  | summary
deriving DecidableEq, Repr

/-- External inputs of the solver: the QSVM environment, the dataset
returned by `load_dataset`, the backend availability flag of
`verify_quantum_backend`, and the numpy sampling primitives. -/
structure SolverEnv (M : Type) : Type where
  qsvm : QSVMEnv M
  loadDataset : Mat × List ℤ × Mat × List ℤ
  backendOk : Bool
  choice : List ℕ → ℕ → List ℕ
  shuffle : List ℕ → List ℕ

/-- The dictionary returned by `evaluate_model` in `quantum_solver.py`. -/
structure SolverEvalOut : Type where
  accuracy : ℚ
  precision : ℚ
  «recall» : ℚ
  f1 : ℚ
  predictions : List ℤ
  probabilities : List ℚ

/-- `train_quantum_model`: `QSVM(n_features, reps=2, entanglement='full',
C=1.0)` fitted on the sampled training data. -/
def train_quantum_model {M : Type} (env : QSVMEnv M) (Xtr : Mat) (ytr : List ℤ)
    (n_features : ℕ) : QSVM M :=
  QSVM.fit env (QSVM.make M n_features 2 Entanglement.full 1) Xtr ytr

/-- `evaluate_model` in `quantum_solver.py`: predictions, positive-class
probabilities, and the four sklearn scores with `zero_division=0`. -/
def solver_evaluate_model {M : Type} (env : QSVMEnv M) (q : QSVM M) (Xte : Mat)
    (yte : List ℤ) : SolverEvalOut :=
  let y_pred := (QSVM.predict env q Xte).getD []
  let y_proba := ((QSVM.predict_proba env q Xte).getD []).map Prod.snd
  { accuracy := accuracyScore yte y_pred
    precision := precisionScore yte y_pred
    «recall» := recallScore yte y_pred
    f1 := f1Score yte y_pred
    predictions := y_pred
    probabilities := y_proba }

/-- The artefacts written by `save_results`: the two prediction arrays and
the four metric lines of `metrics.txt`. -/
structure SavedResults : Type where
  predictions : List ℤ
  probabilities : List ℚ
  metricsText : ℚ × ℚ × ℚ × ℚ

/-- `save_results`: persists the evaluation output. -/
def save_results_step (results : SolverEvalOut) : SavedResults :=
  { predictions := results.predictions
    probabilities := results.probabilities
    metricsText := (results.accuracy, results.precision, results.«recall», results.f1) }

/-- Everything `main` produces: the step trace and each step's output. -/
structure SolverRun (M : Type) : Type where
  trace : List SolverStep
  model : QSVM M
  results : SolverEvalOut
  saved : SavedResults
  summaryTrainSamples : ℕ
  summaryTestSamples : ℕ
  summaryF1 : ℚ

/-- `main`: load dataset, verify backend, select features (8 qubits),
subsample training data (1000 max), train the quantum SVM, evaluate on the
test set, save results, print the summary — in that order, each step
consuming the previous step's outputs. -/
def solver_main {M : Type} (env : SolverEnv M) : SolverRun M :=
  let load := env.loadDataset
  let X_train := load.1
  let y_train := load.2.1
  let X_test := load.2.2.1
  let y_test := load.2.2.2
  let quantum_available := env.backendOk
  let sel := select_features X_train X_test 8
  let X_train_q := sel.1
  let X_test_q := sel.2.1
  let feature_indices := sel.2.2
  let samp := sample_for_quantum env.choice env.shuffle X_train_q y_train 1000
  let X_train_sampled := samp.1
  let y_train_sampled := samp.2
  let quantum_model := train_quantum_model env.qsvm X_train_sampled y_train_sampled 8
  let results := solver_evaluate_model env.qsvm quantum_model X_test_q y_test
  let saved := save_results_step results
  { trace := [SolverStep.loadData, SolverStep.verifyBackend, SolverStep.featureSelection,
      SolverStep.sampling, SolverStep.training, SolverStep.evaluation, SolverStep.saving,
      SolverStep.summary]
    model := quantum_model
    results := results
    saved := saved
    summaryTrainSamples := X_train_sampled.length
    summaryTestSamples := X_test_q.length
    summaryF1 := results.f1 }

end QuantumSolverMain

/-- C7: `main` performs its steps in the fixed source order — load, verify
backend, select features, subsample, train, evaluate, save, summarise —
and each step's output feeds the next: the model is trained on the sampled
selection of the loaded training data, the evaluation applies that model
to the selected test features and loaded test labels, the saved artefacts
come from that evaluation, and the summary reports its F1. -/
theorem solver_main_sequential_pipeline (M : Type) (env : SolverEnv M) :
    (solver_main env).trace = [SolverStep.loadData, SolverStep.verifyBackend,
      SolverStep.featureSelection, SolverStep.sampling, SolverStep.training,
      SolverStep.evaluation, SolverStep.saving, SolverStep.summary] ∧
    (solver_main env).model =
      train_quantum_model env.qsvm
        (sample_for_quantum env.choice env.shuffle
          (select_features env.loadDataset.1 env.loadDataset.2.2.1 8).1
          env.loadDataset.2.1 1000).1
        (sample_for_quantum env.choice env.shuffle
          (select_features env.loadDataset.1 env.loadDataset.2.2.1 8).1
          env.loadDataset.2.1 1000).2 8 ∧
    (solver_main env).results =
      solver_evaluate_model env.qsvm (solver_main env).model
        (select_features env.loadDataset.1 env.loadDataset.2.2.1 8).2.1
        env.loadDataset.2.2.2 ∧
    (solver_main env).saved = save_results_step (solver_main env).results ∧
    (solver_main env).summaryF1 = (solver_main env).results.f1 :=
  ⟨rfl, rfl, rfl, rfl, rfl⟩
